import Mathlib

/-!
# prv: pressure relief valve (src/prv.c)

A shallow embedding of the rate-limiting core of `prv.c`: the engine state
`prv_state_t`, the per-record function `prv_output` (window tracker, admission
decision, output write) and the driver loop `prv_input` with the exit status
chosen by `main`.

Everything the C code obtains from its environment is an explicit input:

* `getnline` (declared in `getnline.h`) yields the records; a finite list of
  iterations followed by a `-1` result models an input that ends;
* `clock_gettime` yields a `timespec`, or fails;
* `fwrite` reports how many bytes it wrote, and leaves a value in `errno`;
* `ferror(stdin)` reports the error indicator of the input stream.

Machine integers: `size_t` is 64 bits wide (arithmetic modulo `2^64`), `int` is
32 bits wide, `time_t` values are mathematical integers, and the conversion of
a `time_t` difference to `int` keeps the low 32 bits (two's complement).
-/

namespace Prv

/-! ## Data model -/

/-- The `struct timespec` of `time.h`: whole seconds and nanoseconds. -/
structure timespec where
  tv_sec : Int
  tv_nsec : Int
  deriving DecidableEq, Repr

/-- Write-error mode `PRV_WR_BLOCK` of the anonymous enum (line 42). -/
def PRV_WR_BLOCK : Int := 0

/-- Write-error mode `PRV_WR_DROP` of the anonymous enum (line 42). -/
def PRV_WR_DROP : Int := 1

/-- Write-error mode `PRV_WR_EXIT` of the anonymous enum (line 42). -/
def PRV_WR_EXIT : Int := 2

/-- The value of `EAGAIN` in the Linux `errno.h`. -/
def EAGAIN : Int := 11

/-- The value of `EPIPE` in the Linux `errno.h`. -/
def EPIPE : Int := 32

/-- The value of `EXIT_FAILURE` in `stdlib.h`. -/
def EXIT_FAILURE : Nat := 1

/-- Number of values of a `size_t`. -/
def SIZE_MOD : Nat := 2 ^ 64

/-- The engine state `prv_state_t` (lines 44-51). -/
structure prv_state_t where
  verbose : Int
  limit : Nat
  count : Nat
  window : Int
  t0 : timespec
  write_error : Int
  deriving DecidableEq, Repr

/-- Conversion of an integer to a 32-bit `int`: the low 32 bits, read as a
two's complement number. -/
def to_int (x : Int) : Int :=
  (x + 2 ^ 31) % 2 ^ 32 - 2 ^ 31

/-- Diagnostics printed by the `VERBOSE` macro (lines 59-64), one constructor
per format string. -/
inductive Diag where
  /-- The text `INTERVAL:%d/%d` of line 181. -/
  | interval (sec : Int) (window : Int)
  /-- The text `DISCARD:%zu/%zu:%s` of line 186. -/
  | discard (count : Nat) (limit : Nat) (buf : List Nat)
  /-- The text `PIPE FULL:dropped:%s` of line 149. -/
  | pipe_full (buf : List Nat)
  deriving DecidableEq, Repr

/-- What the program sends to its two output streams. -/
inductive Event where
  /-- A call `fprintf(stderr, ...)` made by `VERBOSE`. -/
  | stderr (d : Diag)
  /-- A call `fwrite(buf, 1, buflen, stdout)`. -/
  | stdout (buf : List Nat) (buflen : Nat)
  deriving DecidableEq, Repr

/-- The macro `VERBOSE(s, n, ...)`: prints when `s->verbose >= n`. -/
def VERBOSE (s : prv_state_t) (n : Int) (d : Diag) : List Event :=
  if s.verbose ≥ n then [Event.stderr d] else []

/-- What one call of `prv_output` leaves behind: the updated state, the
returned `size_t` and the stream traffic. -/
structure OutputResult where
  state : prv_state_t
  ret : Nat
  events : List Event
  deriving DecidableEq, Repr

/-! ## prv_output (lines 166-191) -/

/-- The `int sec` of line 173: the distance in seconds from the window start to
the clock reading, converted to `int`. -/
def elapsed (s : prv_state_t) (t1 : timespec) : Int :=
  to_int (t1.tv_sec - s.t0.tv_sec)

/-- The window tracker of lines 175-179: a rollover resets the count and moves
the window start to the whole second of the reading. -/
def window_update (s : prv_state_t) (t1 : timespec) : prv_state_t :=
  if elapsed s t1 ≥ s.window then
    { s with count := 0, t0 := { tv_sec := t1.tv_sec, tv_nsec := 0 } }
  else s

/-- The function `prv_output`. `clock` is the result of `clock_gettime`
(`none` when it fails, which ends the process with `EXIT_FAILURE`),
`fwrite_ret` is what `fwrite` returns if it is called. -/
def prv_output (s : prv_state_t) (clock : Option timespec) (buf : List Nat)
    (buflen : Nat) (fwrite_ret : Nat) : Except Nat OutputResult :=
  match clock with
  | none => Except.error EXIT_FAILURE
  | some t1 =>
    let sec := elapsed s t1
    let s1 := window_update s t1
    let ev1 := VERBOSE s1 3 (Diag.interval sec s1.window)
    let s2 := { s1 with count := (s1.count + 1) % SIZE_MOD }
    if s2.limit > 0 ∧ s2.count > s2.limit then
      Except.ok
        { state := s2, ret := buflen,
          events := ev1 ++ VERBOSE s2 2 (Diag.discard s2.count s2.limit buf) }
    else
      Except.ok
        { state := s2, ret := fwrite_ret,
          events := ev1 ++ [Event.stdout buf buflen] }

/-! ## prv_input (lines 138-164) and the exit status of main -/

/-- What the environment supplies during one pass of the loop of `prv_input`. -/
structure Iteration where
  /-- The record `getnline` stored in `buf`; its length is the returned `n`. -/
  line : List Nat
  /-- The result of `clock_gettime` inside `prv_output`. -/
  clock : Option timespec
  /-- The value `fwrite` returns, if it is called. -/
  fwrite_ret : Nat
  /-- The value of `errno` read by the `switch` of line 145. The `switch` is
  reached only when `prv_output` returned from `fwrite` with a short count, so
  this is the value `fwrite` left. -/
  errno : Int
  /-- The value of `ferror(stdin)` if `PRV_EOF` is reached from this pass. -/
  ferror : Bool
  deriving DecidableEq, Repr

/-- How `prv_input` ends: it returns an `int`, or the process is ended from
inside `prv_output` by `err`. -/
inductive Outcome where
  | ret (v : Int)
  | exit (status : Nat)
  deriving DecidableEq, Repr

/-- The observable result of `prv_input`. -/
structure InputResult where
  state : prv_state_t
  outcome : Outcome
  events : List Event
  /-- Number of records obtained from `getnline`. -/
  reads : Nat
  deriving DecidableEq, Repr

/-- The code at the label `PRV_EOF` (lines 159-163). -/
def prv_eof (ferror : Bool) : Outcome :=
  if ferror then Outcome.ret (-1) else Outcome.ret 0

/-- Adds the traffic and the read of one more loop pass in front of the result
of the remaining passes. -/
def InputResult.after (ev : List Event) (r : InputResult) : InputResult :=
  { r with events := ev ++ r.events, reads := r.reads + 1 }

/-- The function `prv_input`. The list holds the records `getnline` returns
before it reports `-1`; `eof_ferror` is `ferror(stdin)` at that moment. -/
def prv_input (s : prv_state_t) : List Iteration → Bool → InputResult
  | [], eof_ferror =>
    { state := s, outcome := prv_eof eof_ferror, events := [], reads := 0 }
  | it :: rest, eof_ferror =>
    let n := it.line.length
    match prv_output s it.clock it.line n it.fwrite_ret with
    | Except.error status =>
      { state := s, outcome := Outcome.exit status, events := [], reads := 1 }
    | Except.ok r =>
      if r.ret ≠ n then
        if it.errno = 0 then
          { state := r.state, outcome := prv_eof it.ferror, events := r.events,
            reads := 1 }
        else if it.errno = EAGAIN then
          let ev := r.events ++ VERBOSE r.state 1 (Diag.pipe_full it.line)
          if r.state.write_error = PRV_WR_DROP then
            (prv_input r.state rest eof_ferror).after ev
          else
            { state := r.state, outcome := Outcome.ret (-1), events := ev,
              reads := 1 }
        else
          { state := r.state, outcome := Outcome.ret (-1), events := r.events,
            reads := 1 }
      else
        (prv_input r.state rest eof_ferror).after r.events

/-- The end of `main` (lines 132-135): status 111 when `prv_input` returns a
negative value, status 0 otherwise; a process ended by `err` keeps the status
given there. -/
def exit_status (r : InputResult) : Nat :=
  match r.outcome with
  | Outcome.exit status => status
  | Outcome.ret v => if v < 0 then 111 else 0

/-! ## Observations used by the statements -/

/-- The `fwrite` calls on standard output, in order. -/
def stdout_calls : List Event → List (List Nat × Nat)
  | [] => []
  | Event.stdout buf buflen :: es => (buf, buflen) :: stdout_calls es
  | Event.stderr _ :: es => stdout_calls es

/-- The bytes handed to standard output: `fwrite` is given the first `buflen`
bytes of `buf`. -/
def stdout_bytes (es : List Event) : List Nat :=
  ((stdout_calls es).map (fun c => c.1.take c.2)).flatten

/-- One call of `prv_output` with a clock that works. -/
structure Call where
  t1 : timespec
  buf : List Nat
  buflen : Nat
  fwrite_ret : Nat
  deriving DecidableEq, Repr

/-- The state after one call of `prv_output`: the count is incremented after
the window tracker ran; limit and write result have no part in it. -/
def next_state (s : prv_state_t) (t1 : timespec) : prv_state_t :=
  { window_update s t1 with count := ((window_update s t1).count + 1) % SIZE_MOD }

/-- Successive calls of `prv_output`, each on the state the previous one left;
the result pairs every call with the state it started from. A failing clock
ends the run. -/
def output_run (s : prv_state_t) : List Call → List (prv_state_t × OutputResult)
  | [] => []
  | c :: cs =>
    match prv_output s (some c.t1) c.buf c.buflen c.fwrite_ret with
    | Except.error _ => []
    | Except.ok r => (s, r) :: output_run r.state cs

/-- The state left by successive calls of `prv_output`. -/
def output_state (s : prv_state_t) : List Call → prv_state_t
  | [] => s
  | c :: cs =>
    match prv_output s (some c.t1) c.buf c.buflen c.fwrite_ret with
    | Except.error _ => s
    | Except.ok r => output_state r.state cs

/-- No call of the run sees the window expire: each one computes
`sec < window` on the state it starts from. -/
def same_window (s : prv_state_t) : List Call → Bool
  | [] => true
  | c :: cs => decide (elapsed s c.t1 < s.window) && same_window (next_state s c.t1) cs

/-- The loop of `prv_input` goes on to the next `getnline` after every record of
the list: no `err`, no `goto PRV_EOF` and no `return -1` ends it early. -/
def runs_through (s : prv_state_t) : List Iteration → Bool
  | [] => true
  | it :: rest =>
    match prv_output s it.clock it.line it.line.length it.fwrite_ret with
    | Except.error _ => false
    | Except.ok r =>
      (if r.ret ≠ it.line.length then
        decide (it.errno ≠ 0 ∧ it.errno = EAGAIN ∧ r.state.write_error = PRV_WR_DROP)
      else true) && runs_through r.state rest

/-- The call of `prv_output` made for a record, when the clock works. -/
def Iteration.call (it : Iteration) : Option Call :=
  it.clock.map (fun t1 => { t1 := t1, buf := it.line, buflen := it.line.length,
                            fwrite_ret := it.fwrite_ret })

/-- A window opens at the first call of the run and lasts to its end: the first
call starts from a zero count or sees the window expire, and no later call sees
it expire. -/
def window_opens (s : prv_state_t) : List Call → Bool
  | [] => true
  | c :: cs =>
    (decide (s.count = 0) || decide (s.window ≤ elapsed s c.t1))
      && same_window (next_state s c.t1) cs

/-- Order of two `timespec` values: seconds first, then nanoseconds. -/
def timespec.le (a b : timespec) : Prop :=
  a.tv_sec < b.tv_sec ∨ (a.tv_sec = b.tv_sec ∧ a.tv_nsec ≤ b.tv_nsec)

/-! ## Traffic of a call and example data -/

/-- The stream traffic of a call of `prv_output` that discards. -/
def discard_events (s : prv_state_t) (t1 : timespec) (buf : List Nat) : List Event :=
  VERBOSE (window_update s t1) 3 (Diag.interval (elapsed s t1) (window_update s t1).window)
    ++ VERBOSE (next_state s t1) 2
        (Diag.discard (next_state s t1).count (next_state s t1).limit buf)

/-- The stream traffic of a call of `prv_output` that reaches `fwrite`. -/
def write_events (s : prv_state_t) (t1 : timespec) (buf : List Nat) (buflen : Nat) :
    List Event :=
  VERBOSE (window_update s t1) 3 (Diag.interval (elapsed s t1) (window_update s t1).window)
    ++ [Event.stdout buf buflen]

/-- Example state: `limit = 3`, `window = 60`, verbosity 2, window start at
second 100, count 0. -/
def example_state : prv_state_t :=
  { verbose := 2, limit := 3, count := 0, window := 60,
    t0 := { tv_sec := 100, tv_nsec := 250 }, write_error := 0 }

/-- Example run: five two-byte records read within five seconds; the second
`fwrite` call is reported short. -/
def example_calls : List Call :=
  [ { t1 := { tv_sec := 100, tv_nsec := 300 }, buf := [49, 10], buflen := 2, fwrite_ret := 2 },
    { t1 := { tv_sec := 101, tv_nsec := 0 }, buf := [50, 10], buflen := 2, fwrite_ret := 0 },
    { t1 := { tv_sec := 102, tv_nsec := 0 }, buf := [51, 10], buflen := 2, fwrite_ret := 2 },
    { t1 := { tv_sec := 103, tv_nsec := 0 }, buf := [52, 10], buflen := 2, fwrite_ret := 2 },
    { t1 := { tv_sec := 104, tv_nsec := 0 }, buf := [53, 10], buflen := 2, fwrite_ret := 2 } ]

/-- Example state in the Exit mode: no limit, `window = 1`, verbosity 1. -/
def example_exit_state : prv_state_t :=
  { verbose := 1, limit := 0, count := 0, window := 1,
    t0 := { tv_sec := 100, tv_nsec := 0 }, write_error := PRV_WR_EXIT }

/-- Example state in the Drop mode: `limit = 2`, `window = 60`, verbosity 1. -/
def example_drop_state : prv_state_t :=
  { verbose := 1, limit := 2, count := 0, window := 60,
    t0 := { tv_sec := 100, tv_nsec := 0 }, write_error := PRV_WR_DROP }

/-- Example state in the Block mode: no limit, `window = 1`, silent. -/
def example_block_state : prv_state_t :=
  { verbose := 0, limit := 0, count := 0, window := 1,
    t0 := { tv_sec := 100, tv_nsec := 0 }, write_error := PRV_WR_BLOCK }

/-- Example pass: a two-byte record written in full. -/
def example_ok : Iteration :=
  { line := [97, 10], clock := some { tv_sec := 100, tv_nsec := 5 }, fwrite_ret := 2,
    errno := 0, ferror := false }

/-- Example pass: a two-byte record, `fwrite` writes nothing and leaves
`errno = EAGAIN`. -/
def example_full : Iteration :=
  { line := [98, 10], clock := some { tv_sec := 100, tv_nsec := 9 }, fwrite_ret := 0,
    errno := EAGAIN, ferror := false }

/-- Example pass: a two-byte record, `fwrite` writes nothing and leaves
`errno = EPIPE`. -/
def example_broken : Iteration :=
  { line := [98, 10], clock := some { tv_sec := 100, tv_nsec := 9 }, fwrite_ret := 0,
    errno := EPIPE, ferror := false }

/-- Example pass: a two-byte record, `fwrite` writes one byte and `errno` is 0. -/
def example_short : Iteration :=
  { line := [98, 10], clock := some { tv_sec := 100, tv_nsec := 9 }, fwrite_ret := 1,
    errno := 0, ferror := false }

/-! ## Basic facts about prv_output -/

theorem stdout_calls_append (a b : List Event) :
    stdout_calls (a ++ b) = stdout_calls a ++ stdout_calls b := by
  induction a with
  | nil => rfl
  | cons e es ih => cases e <;> simp [stdout_calls, ih]

theorem stdout_calls_VERBOSE (s : prv_state_t) (n : Int) (d : Diag) :
    stdout_calls (VERBOSE s n d) = [] := by
  unfold VERBOSE
  split <;> rfl

theorem next_state_limit (s : prv_state_t) (t1 : timespec) :
    (next_state s t1).limit = s.limit := by
  unfold next_state window_update
  split <;> rfl

theorem next_state_window (s : prv_state_t) (t1 : timespec) :
    (next_state s t1).window = s.window := by
  unfold next_state window_update
  split <;> rfl

theorem next_state_write_error (s : prv_state_t) (t1 : timespec) :
    (next_state s t1).write_error = s.write_error := by
  unfold next_state window_update
  split <;> rfl

theorem next_state_count_same (s : prv_state_t) (t1 : timespec)
    (h : elapsed s t1 < s.window) :
    (next_state s t1).count = (s.count + 1) % SIZE_MOD := by
  unfold next_state window_update
  rw [if_neg (by omega)]

theorem next_state_count_roll (s : prv_state_t) (t1 : timespec)
    (h : s.window ≤ elapsed s t1) :
    (next_state s t1).count = 1 := by
  unfold next_state window_update
  rw [if_pos (by omega)]
  rfl

theorem next_state_t0_same (s : prv_state_t) (t1 : timespec)
    (h : elapsed s t1 < s.window) :
    (next_state s t1).t0 = s.t0 := by
  unfold next_state window_update
  rw [if_neg (by omega)]

theorem next_state_t0_roll (s : prv_state_t) (t1 : timespec)
    (h : s.window ≤ elapsed s t1) :
    (next_state s t1).t0 = { tv_sec := t1.tv_sec, tv_nsec := 0 } := by
  unfold next_state window_update
  rw [if_pos (by omega)]

theorem stdout_calls_discard_events (s : prv_state_t) (t1 : timespec) (buf : List Nat) :
    stdout_calls (discard_events s t1 buf) = [] := by
  simp [discard_events, stdout_calls_append, stdout_calls_VERBOSE]

theorem stdout_calls_write_events (s : prv_state_t) (t1 : timespec) (buf : List Nat)
    (buflen : Nat) :
    stdout_calls (write_events s t1 buf buflen) = [(buf, buflen)] := by
  simp [write_events, stdout_calls_append, stdout_calls_VERBOSE, stdout_calls]

/-- A call of `prv_output` that discards: the count passed a positive limit. -/
theorem prv_output_discard (s : prv_state_t) (t1 : timespec) (buf : List Nat)
    (buflen fw : Nat)
    (h : 0 < s.limit ∧ s.limit < (next_state s t1).count) :
    prv_output s (some t1) buf buflen fw
      = Except.ok { state := next_state s t1, ret := buflen,
                    events := discard_events s t1 buf } := by
  have hl := next_state_limit s t1
  simp only [prv_output]
  rw [if_pos]
  · rfl
  · rw [← hl] at h
    exact h

/-- A call of `prv_output` that reaches `fwrite`. -/
theorem prv_output_write (s : prv_state_t) (t1 : timespec) (buf : List Nat)
    (buflen fw : Nat)
    (h : ¬ (0 < s.limit ∧ s.limit < (next_state s t1).count)) :
    prv_output s (some t1) buf buflen fw
      = Except.ok { state := next_state s t1, ret := fw,
                    events := write_events s t1 buf buflen } := by
  have hl := next_state_limit s t1
  simp only [prv_output]
  rw [if_neg]
  · rfl
  · rw [← hl] at h
    exact h

/-- With a working clock `prv_output` returns, and leaves `next_state`. -/
theorem prv_output_some (s : prv_state_t) (t1 : timespec) (buf : List Nat)
    (buflen fw : Nat) :
    ∃ r, prv_output s (some t1) buf buflen fw = Except.ok r
      ∧ r.state = next_state s t1 := by
  by_cases h : 0 < s.limit ∧ s.limit < (next_state s t1).count
  · exact ⟨_, prv_output_discard s t1 buf buflen fw h, rfl⟩
  · exact ⟨_, prv_output_write s t1 buf buflen fw h, rfl⟩

/-! ## The conversion to int -/

theorem to_int_of_fits (x : Int) (h0 : -(2 ^ 31) ≤ x) (h1 : x < 2 ^ 31) : to_int x = x := by
  unfold to_int
  omega

/-- When the distance from the window start to the reading fits an `int`, the
`sec` of line 173 is that distance. -/
theorem elapsed_of_fits (s : prv_state_t) (t1 : timespec)
    (h0 : s.t0.tv_sec ≤ t1.tv_sec) (h1 : t1.tv_sec - s.t0.tv_sec < 2 ^ 31) :
    elapsed s t1 = t1.tv_sec - s.t0.tv_sec := by
  unfold elapsed
  exact to_int_of_fits _ (by omega) h1

/-- Rollover rule on the distances that fit an `int`: the window is reset
exactly when the distance is at least the window length. -/
theorem rollover_of_fits (s : prv_state_t) (t1 : timespec)
    (h0 : s.t0.tv_sec ≤ t1.tv_sec) (h1 : t1.tv_sec - s.t0.tv_sec < 2 ^ 31) :
    (s.window ≤ t1.tv_sec - s.t0.tv_sec →
        window_update s t1
          = { s with count := 0, t0 := { tv_sec := t1.tv_sec, tv_nsec := 0 } })
      ∧ (t1.tv_sec - s.t0.tv_sec < s.window → window_update s t1 = s) := by
  have he := elapsed_of_fits s t1 h0 h1
  unfold window_update
  constructor
  · intro h
    rw [if_pos (by omega)]
  · intro h
    rw [if_neg (by omega)]

/-! ## Claims about a single call of prv_output -/

/-- C2. Single-step admission rule: for every state, clock reading and record,
a call of `prv_output` returns; it discards the record (no `fwrite` call and the
full length returned) if and only if `limit > 0` and the count after this
record's increment exceeds the limit; in every other case it calls `fwrite`
once, on exactly the record and its length, and returns what `fwrite` returned;
in particular with `limit = 0` every record reaches `fwrite`. -/
theorem single_step_admission (s : prv_state_t) (t1 : timespec) (buf : List Nat)
    (buflen fw : Nat) :
    ∃ r, prv_output s (some t1) buf buflen fw = Except.ok r
      ∧ r.state.count = ((window_update s t1).count + 1) % SIZE_MOD
      ∧ ((stdout_calls r.events = [] ∧ r.ret = buflen)
          ↔ (0 < s.limit ∧ s.limit < r.state.count))
      ∧ (¬ (0 < s.limit ∧ s.limit < r.state.count) →
          stdout_calls r.events = [(buf, buflen)] ∧ r.ret = fw)
      ∧ (s.limit = 0 → stdout_calls r.events = [(buf, buflen)]) := by
  by_cases h : 0 < s.limit ∧ s.limit < (next_state s t1).count
  · refine ⟨_, prv_output_discard s t1 buf buflen fw h, rfl, ?_, ?_, ?_⟩
    · simp only [stdout_calls_discard_events, true_and]
      exact ⟨fun _ => h, fun _ => trivial⟩
    · intro hn
      exact absurd h hn
    · intro hz
      omega
  · refine ⟨_, prv_output_write s t1 buf buflen fw h, rfl, ?_, ?_, ?_⟩
    · simp only [stdout_calls_write_events]
      constructor
      · intro hc
        exact absurd hc.1 (by simp)
      · intro hc
        exact absurd hc h
    · intro _
      exact ⟨stdout_calls_write_events s t1 buf buflen, rfl⟩
    · intro _
      exact stdout_calls_write_events s t1 buf buflen

/-- C9. First record of a new window: with `limit >= 1`, whatever the state, a
call of `prv_output` that computes `sec >= window` calls `fwrite` on the record
(and leaves the count at 1). -/
theorem first_of_window_admitted (s : prv_state_t) (t1 : timespec) (buf : List Nat)
    (buflen fw : Nat) (hL : 1 ≤ s.limit) (hroll : s.window ≤ elapsed s t1) :
    ∃ r, prv_output s (some t1) buf buflen fw = Except.ok r
      ∧ stdout_calls r.events = [(buf, buflen)]
      ∧ r.ret = fw
      ∧ r.state.count = 1 := by
  have hc := next_state_count_roll s t1 hroll
  have h : ¬ (0 < s.limit ∧ s.limit < (next_state s t1).count) := by
    rw [hc]
    omega
  exact ⟨_, prv_output_write s t1 buf buflen fw h,
    stdout_calls_write_events s t1 buf buflen, rfl, hc⟩

/-- Witness for C9: `limit = 1`, `window = 1`, window start at second 10; a
record at second 10 and a record at second 12 are both handed to `fwrite`. -/
theorem first_of_window_admitted_witness :
    (1 ≤ (1 : Nat) ∧ (1 : Int) ≤ elapsed
        { verbose := 0, limit := 1, count := 1, window := 1,
          t0 := { tv_sec := 10, tv_nsec := 500 }, write_error := 0 }
        { tv_sec := 12, tv_nsec := 100 })
    ∧ (∃ r, prv_output
          { verbose := 0, limit := 1, count := 1, window := 1,
            t0 := { tv_sec := 10, tv_nsec := 500 }, write_error := 0 }
          (some { tv_sec := 12, tv_nsec := 100 }) [98, 10] 2 2 = Except.ok r
        ∧ stdout_calls r.events = [([98, 10], 2)] ∧ r.ret = 2 ∧ r.state.count = 1)
    ∧ stdout_calls (prv_input
          { verbose := 0, limit := 1, count := 0, window := 1,
            t0 := { tv_sec := 10, tv_nsec := 500 }, write_error := 0 }
          [ { line := [97, 10], clock := some { tv_sec := 10, tv_nsec := 900 },
              fwrite_ret := 2, errno := 0, ferror := false },
            { line := [98, 10], clock := some { tv_sec := 12, tv_nsec := 100 },
              fwrite_ret := 2, errno := 0, ferror := false } ] false).events
        = [([97, 10], 2), ([98, 10], 2)] :=
  ⟨⟨by decide, by decide⟩,
   first_of_window_admitted _ _ [98, 10] 2 2 (by decide) (by decide),
   by decide⟩

/-- C4, at the failing input: window start at second 0, `window = 1`, count 5,
clock reading at second `2^31`. The reading is later than the window start by
at least the window length, yet `sec` is negative after the conversion to
`int`: the call leaves `window_start` unchanged and only increments the count
to 6. -/
theorem rollover_missed_beyond_int :
    ((1 : Int) ≤ 2147483648 - 0)
    ∧ elapsed
        { verbose := 0, limit := 0, count := 5, window := 1,
          t0 := { tv_sec := 0, tv_nsec := 0 }, write_error := 0 }
        { tv_sec := 2147483648, tv_nsec := 0 } = -2147483648
    ∧ prv_output
        { verbose := 0, limit := 0, count := 5, window := 1,
          t0 := { tv_sec := 0, tv_nsec := 0 }, write_error := 0 }
        (some { tv_sec := 2147483648, tv_nsec := 0 }) [97, 10] 2 2
      = Except.ok
        { state := { verbose := 0, limit := 0, count := 6, window := 1,
                     t0 := { tv_sec := 0, tv_nsec := 0 }, write_error := 0 },
          ret := 2, events := [Event.stdout [97, 10] 2] } := by
  refine ⟨by decide, by decide, rfl⟩

/-! ## Runs of prv_output inside one window -/

/-- What a returning call of `prv_output` did, read off its result. -/
theorem prv_output_ok_cases (s : prv_state_t) (t1 : timespec) (buf : List Nat)
    (buflen fw : Nat) (r : OutputResult)
    (h : prv_output s (some t1) buf buflen fw = Except.ok r) :
    r.state = next_state s t1
      ∧ ((0 < s.limit ∧ s.limit < r.state.count) →
          stdout_calls r.events = [] ∧ r.ret = buflen)
      ∧ (¬ (0 < s.limit ∧ s.limit < r.state.count) →
          stdout_calls r.events = [(buf, buflen)] ∧ r.ret = fw) := by
  by_cases hd : 0 < s.limit ∧ s.limit < (next_state s t1).count
  · rw [prv_output_discard s t1 buf buflen fw hd] at h
    cases h
    exact ⟨rfl, fun _ => ⟨stdout_calls_discard_events s t1 buf, rfl⟩,
      fun hn => absurd hd hn⟩
  · rw [prv_output_write s t1 buf buflen fw hd] at h
    cases h
    exact ⟨rfl, fun hc => absurd hc hd,
      fun _ => ⟨stdout_calls_write_events s t1 buf buflen, rfl⟩⟩

theorem output_run_cons (s : prv_state_t) (c : Call) (cs : List Call) :
    ∃ r, prv_output s (some c.t1) c.buf c.buflen c.fwrite_ret = Except.ok r
      ∧ r.state = next_state s c.t1
      ∧ output_run s (c :: cs) = (s, r) :: output_run (next_state s c.t1) cs := by
  obtain ⟨r, hr, hs⟩ := prv_output_some s c.t1 c.buf c.buflen c.fwrite_ret
  refine ⟨r, hr, hs, ?_⟩
  simp only [output_run, hr, hs]

theorem output_state_cons (s : prv_state_t) (c : Call) (cs : List Call) :
    output_state s (c :: cs) = output_state (next_state s c.t1) cs := by
  obtain ⟨r, hr, hs⟩ := prv_output_some s c.t1 c.buf c.buflen c.fwrite_ret
  simp only [output_state, hr, hs]

theorem next_state_count_lt (s : prv_state_t) (t1 : timespec) :
    (next_state s t1).count < SIZE_MOD := by
  unfold next_state
  exact Nat.mod_lt _ (by decide)

/-- Inside one window every call adds one to the count (a `size_t`). -/
theorem output_state_count_same_window (s : prv_state_t) (calls : List Call)
    (hs : same_window s calls = true) (hc : s.count < SIZE_MOD) :
    (output_state s calls).count = (s.count + calls.length) % SIZE_MOD := by
  induction calls generalizing s with
  | nil => simp [output_state, Nat.mod_eq_of_lt hc]
  | cons c cs ih =>
    simp only [same_window, Bool.and_eq_true, decide_eq_true_eq] at hs
    rw [output_state_cons, ih _ hs.2 (next_state_count_lt s c.t1),
      next_state_count_same s c.t1 hs.1, List.length_cons]
    simp only [SIZE_MOD]
    omega

/-- Inside one window the call at position `k` is run by `prv_output` on a state
with the limit of the start, and leaves the count of the start plus `k + 1`. -/
theorem output_run_same_window (s : prv_state_t) (calls : List Call)
    (hs : same_window s calls = true) (k : Nat) (c : Call)
    (hc : calls[k]? = some c) :
    ∃ pre r, (output_run s calls)[k]? = some (pre, r)
      ∧ prv_output pre (some c.t1) c.buf c.buflen c.fwrite_ret = Except.ok r
      ∧ pre.limit = s.limit
      ∧ r.state.count = (s.count + k + 1) % SIZE_MOD := by
  induction calls generalizing s k with
  | nil => simp at hc
  | cons c0 cs ih =>
    simp only [same_window, Bool.and_eq_true, decide_eq_true_eq] at hs
    obtain ⟨r0, hr0, hst0, hrun⟩ := output_run_cons s c0 cs
    cases k with
    | zero =>
      simp only [List.getElem?_cons_zero, Option.some.injEq] at hc
      subst hc
      refine ⟨s, r0, by simp [hrun], hr0, rfl, ?_⟩
      rw [hst0, next_state_count_same s c0.t1 hs.1]
    | succ j =>
      simp only [List.getElem?_cons_succ] at hc
      obtain ⟨pre, r, h1, h2, h3, h4⟩ := ih (next_state s c0.t1) hs.2 j hc
      refine ⟨pre, r, by simp [hrun, h1], h2, by rw [h3, next_state_limit], ?_⟩
      rw [h4, next_state_count_same s c0.t1 hs.1]
      simp only [SIZE_MOD]
      omega

/-- In a window that opens at the first call, the call at position `k` (record
number `k + 1`) leaves the count `k + 1`. -/
theorem output_run_window_opens (s : prv_state_t) (calls : List Call)
    (hopen : window_opens s calls = true) (k : Nat) (c : Call)
    (hc : calls[k]? = some c) (hk : k + 1 < SIZE_MOD) :
    ∃ pre r, (output_run s calls)[k]? = some (pre, r)
      ∧ prv_output pre (some c.t1) c.buf c.buflen c.fwrite_ret = Except.ok r
      ∧ pre.limit = s.limit
      ∧ r.state.count = k + 1 := by
  cases calls with
  | nil => simp at hc
  | cons c0 cs =>
    simp only [window_opens, Bool.and_eq_true, Bool.or_eq_true, decide_eq_true_eq] at hopen
    obtain ⟨r0, hr0, hst0, hrun⟩ := output_run_cons s c0 cs
    have h1 : (next_state s c0.t1).count = 1 := by
      by_cases hroll : s.window ≤ elapsed s c0.t1
      · exact next_state_count_roll s c0.t1 hroll
      · rcases hopen.1 with h0 | h0
        · rw [next_state_count_same s c0.t1 (by omega), h0]
          decide
        · exact absurd h0 hroll
    cases k with
    | zero =>
      simp only [List.getElem?_cons_zero, Option.some.injEq] at hc
      subst hc
      exact ⟨s, r0, by simp [hrun], hr0, rfl, by rw [hst0, h1]⟩
    | succ j =>
      simp only [List.getElem?_cons_succ] at hc
      obtain ⟨pre, r, g1, g2, g3, g4⟩ :=
        output_run_same_window (next_state s c0.t1) cs hopen.2 j c hc
      refine ⟨pre, r, by simp [hrun, g1], g2, by rw [g3, next_state_limit], ?_⟩
      rw [g4, h1, Nat.mod_eq_of_lt (by omega)]
      omega

/-- C1. Admission threshold over a window: with `limit = L > 0`, in a run of
`prv_output` calls whose first call opens a window (it starts from count 0 or
computes `sec >= window`) and whose later calls all compute `sec < window`,
record number `k + 1` is handed to `fwrite` if and only if `k + 1 <= L`, and a
record with `k + 1 > L` is discarded without any `fwrite` call, the full length
being returned; the values the `fwrite` calls return play no part. The count is
a `size_t`, so the record number is below `2^64`. -/
theorem admission_threshold (s : prv_state_t) (calls : List Call)
    (hL : 0 < s.limit) (hopen : window_opens s calls = true)
    (k : Nat) (c : Call) (hc : calls[k]? = some c) (hk : k + 1 < SIZE_MOD) :
    ∃ pre r, (output_run s calls)[k]? = some (pre, r)
      ∧ r.state.count = k + 1
      ∧ (stdout_calls r.events = [(c.buf, c.buflen)] ↔ k + 1 ≤ s.limit)
      ∧ (s.limit < k + 1 → stdout_calls r.events = [] ∧ r.ret = c.buflen) := by
  obtain ⟨pre, r, h1, h2, h3, h4⟩ := output_run_window_opens s calls hopen k c hc hk
  obtain ⟨_, hd, hw⟩ := prv_output_ok_cases pre c.t1 c.buf c.buflen c.fwrite_ret r h2
  rw [h3, h4] at hd hw
  refine ⟨pre, r, h1, h4, ?_, ?_⟩
  · constructor
    · intro hcalls
      by_contra hgt
      have := (hd ⟨hL, by omega⟩).1
      rw [this] at hcalls
      simp at hcalls
    · intro hle
      exact (hw (by omega)).1
  · intro hgt
    exact hd ⟨hL, hgt⟩

/-- Witness for C1: five records, `limit = 3`, `window = 60`. Records 1 to 3 are
handed to `fwrite`, records 4 and 5 are discarded with the counts 4 and 5. -/
theorem admission_threshold_witness :
    (0 < example_state.limit ∧ window_opens example_state example_calls = true
      ∧ example_calls[3]?
          = some { t1 := { tv_sec := 103, tv_nsec := 0 }, buf := [52, 10], buflen := 2,
                   fwrite_ret := 2 }
      ∧ 3 + 1 < SIZE_MOD)
    ∧ (∃ pre r, (output_run example_state example_calls)[3]? = some (pre, r)
        ∧ r.state.count = 3 + 1
        ∧ (stdout_calls r.events = [([52, 10], 2)] ↔ 3 + 1 ≤ example_state.limit)
        ∧ (example_state.limit < 3 + 1 → stdout_calls r.events = [] ∧ r.ret = 2))
    ∧ (output_run example_state example_calls).map (fun p => p.2.events)
        = [ [Event.stdout [49, 10] 2], [Event.stdout [50, 10] 2],
            [Event.stdout [51, 10] 2],
            [Event.stderr (Diag.discard 4 3 [52, 10])],
            [Event.stderr (Diag.discard 5 3 [53, 10])] ] :=
  ⟨⟨by decide, by decide, by decide, by decide⟩,
   admission_threshold example_state example_calls (by decide) (by decide) 3
     { t1 := { tv_sec := 103, tv_nsec := 0 }, buf := [52, 10], buflen := 2, fwrite_ret := 2 }
     (by decide) (by decide),
   by decide⟩

/-- C3. Windowing correctness. From a state with count 0, after `N` successive
calls of `prv_output` that each compute `sec < window`, the count is `N`,
whatever the limit, the write-error mode and the values `fwrite` returns
(written, discarded and failed records all count; the count is a `size_t`, so
`N < 2^64`). And a call that computes `sec >= window`, with `window >= 1` and a
clock reading not earlier than the window start, leaves the count 1 and moves
`window_start` to the whole second of the reading, which is not earlier than
the previous value. -/
theorem windowing_correctness (s : prv_state_t) (calls : List Call)
    (h0 : s.count = 0) (hsame : same_window s calls = true)
    (hN : calls.length < SIZE_MOD) :
    (output_state s calls).count = calls.length
      ∧ ∀ (s2 : prv_state_t) (c : Call), 1 ≤ s2.window → s2.t0.tv_sec ≤ c.t1.tv_sec →
          s2.window ≤ elapsed s2 c.t1 →
          (output_state s2 [c]).count = 1
            ∧ (output_state s2 [c]).t0 = { tv_sec := c.t1.tv_sec, tv_nsec := 0 }
            ∧ timespec.le s2.t0 (output_state s2 [c]).t0 := by
  constructor
  · rw [output_state_count_same_window s calls hsame (by rw [h0]; decide), h0,
      Nat.zero_add, Nat.mod_eq_of_lt hN]
  · intro s2 c hw hmono hroll
    have hst : output_state s2 [c] = next_state s2 c.t1 := by
      rw [output_state_cons]
      rfl
    rw [hst, next_state_count_roll s2 c.t1 hroll, next_state_t0_roll s2 c.t1 hroll]
    refine ⟨rfl, rfl, Or.inl ?_⟩
    show s2.t0.tv_sec < c.t1.tv_sec
    by_contra hlt
    have heq : c.t1.tv_sec - s2.t0.tv_sec = 0 := by omega
    have : elapsed s2 c.t1 = 0 := by
      unfold elapsed
      rw [heq]
      decide
    omega

/-- Witness for C3: the five calls of the example run stay in the window that
starts at count 0 and leave the count 5 (one `fwrite` was short, two records
were discarded); a sixth record 61 seconds after the window start leaves the
count 1 and the window start at its second. -/
theorem windowing_correctness_witness :
    (example_state.count = 0 ∧ same_window example_state example_calls = true
      ∧ example_calls.length < SIZE_MOD)
    ∧ (output_state example_state example_calls).count = 5
    ∧ (output_state (output_state example_state example_calls)
          [{ t1 := { tv_sec := 161, tv_nsec := 7 }, buf := [54, 10], buflen := 2,
             fwrite_ret := 2 }]).count = 1
    ∧ timespec.le (output_state example_state example_calls).t0
        (output_state (output_state example_state example_calls)
          [{ t1 := { tv_sec := 161, tv_nsec := 7 }, buf := [54, 10], buflen := 2,
             fwrite_ret := 2 }]).t0 :=
  have h := windowing_correctness example_state example_calls (by decide) (by decide)
    (by decide)
  have h2 := h.2 (output_state example_state example_calls)
    { t1 := { tv_sec := 161, tv_nsec := 7 }, buf := [54, 10], buflen := 2, fwrite_ret := 2 }
    (by decide) (by decide) (by decide)
  ⟨⟨by decide, by decide, by decide⟩, h.1, h2.1, h2.2.2⟩

/-! ## The loop of prv_input -/

theorem sublist_flatten {α : Type} {l₁ l₂ : List (List α)} (h : l₁.Sublist l₂) :
    l₁.flatten.Sublist l₂.flatten := by
  induction h with
  | slnil => exact List.Sublist.refl _
  | cons a _ ih =>
    rw [List.flatten_cons]
    exact List.Sublist.trans ih (List.sublist_append_right _ _)
  | cons₂ a _ ih =>
    rw [List.flatten_cons, List.flatten_cons]
    exact List.Sublist.append_left ih _

/-- The `fwrite` calls of one call of `prv_output`: none, or one on the record
and the length passed in. -/
theorem prv_output_calls (s : prv_state_t) (clock : Option timespec) (buf : List Nat)
    (buflen fw : Nat) (r : OutputResult)
    (h : prv_output s clock buf buflen fw = Except.ok r) :
    stdout_calls r.events = [] ∨ stdout_calls r.events = [(buf, buflen)] := by
  cases clock with
  | none => simp [prv_output] at h
  | some t1 =>
    obtain ⟨_, hd, hw⟩ := prv_output_ok_cases s t1 buf buflen fw r h
    by_cases hc : 0 < s.limit ∧ s.limit < r.state.count
    · exact Or.inl (hd hc).1
    · exact Or.inr (hw hc).1

/-- The `fwrite` calls made by `prv_input` are taken, in order and each at most
once, from the list of the records read with their lengths. -/
theorem prv_input_calls_sublist (s : prv_state_t) (its : List Iteration) (eof : Bool) :
    (stdout_calls (prv_input s its eof).events).Sublist
      (its.map (fun it => (it.line, it.line.length))) := by
  induction its generalizing s with
  | nil => simp [prv_input, stdout_calls]
  | cons it rest ih =>
    have hnil : ([] : List (List Nat × Nat)).Sublist
        (List.map (fun it => (it.line, it.line.length)) (it :: rest)) :=
      List.nil_sublist _
    cases hout : prv_output s it.clock it.line it.line.length it.fwrite_ret with
    | error status =>
      simp only [prv_input, hout, stdout_calls]
      exact hnil
    | ok r =>
      have hone : (stdout_calls r.events).Sublist [(it.line, it.line.length)] := by
        rcases prv_output_calls s it.clock it.line it.line.length it.fwrite_ret r hout
          with h | h
        · rw [h]
          exact List.nil_sublist _
        · rw [h]
      have hstop : (stdout_calls r.events).Sublist
          (List.map (fun it => (it.line, it.line.length)) (it :: rest)) := by
        rw [List.map_cons]
        exact List.Sublist.trans hone (by simp)
      have hgo : ∀ ev, stdout_calls ev = stdout_calls r.events →
          (stdout_calls ((prv_input r.state rest eof).after ev).events).Sublist
            (List.map (fun it => (it.line, it.line.length)) (it :: rest)) := by
        intro ev hev
        simp only [InputResult.after, stdout_calls_append, hev, List.map_cons]
        exact List.Sublist.append hone (ih r.state)
      simp only [prv_input, hout]
      split
      · split
        · exact hstop
        · split
          · split
            · exact hgo _ (by simp [stdout_calls_append, stdout_calls_VERBOSE])
            · simp only [stdout_calls_append, stdout_calls_VERBOSE, List.append_nil]
              exact hstop
          · exact hstop
      · exact hgo _ rfl

/-- Every `fwrite` call of `prv_input` is given the exact length of its record. -/
theorem prv_input_calls_length (s : prv_state_t) (its : List Iteration) (eof : Bool) :
    ∀ c ∈ stdout_calls (prv_input s its eof).events, c.2 = c.1.length := by
  intro c hc
  have hsub := (prv_input_calls_sublist s its eof).subset hc
  simp only [List.mem_map] at hsub
  obtain ⟨it, _, hit⟩ := hsub
  rw [← hit]

/-- The bytes handed to standard output by `prv_input` are an order-preserving
subsequence of the bytes read. -/
theorem prv_input_bytes_sublist (s : prv_state_t) (its : List Iteration) (eof : Bool) :
    (stdout_bytes (prv_input s its eof).events).Sublist
      (its.map (fun it => it.line)).flatten := by
  have h := (prv_input_calls_sublist s its eof).map (fun c => c.1.take c.2)
  have hm : List.map (fun c => c.1.take c.2)
      (List.map (fun it => (it.line, it.line.length)) its)
      = its.map (fun it => it.line) := by
    simp [List.map_map, Function.comp_def]
  rw [hm] at h
  exact sublist_flatten h

/-- C8. Order preservation: for every state (limit, window, write-error mode,
verbosity), every input, every sequence of clock results and every sequence of
`fwrite` results, the `fwrite` calls `prv_input` makes on standard output are
taken in order, each at most once, from the records read, each with its exact
length; the bytes handed to standard output are an order-preserving
subsequence of the bytes read; every other event goes to standard error. -/
theorem order_preservation (s : prv_state_t) (its : List Iteration) (eof : Bool) :
    (stdout_calls (prv_input s its eof).events).Sublist
        (its.map (fun it => (it.line, it.line.length)))
      ∧ (∀ c ∈ stdout_calls (prv_input s its eof).events, c.2 = c.1.length)
      ∧ (stdout_bytes (prv_input s its eof).events).Sublist
          (its.map (fun it => it.line)).flatten
      ∧ (∀ e ∈ (prv_input s its eof).events,
          (∃ d, e = Event.stderr d) ∨ (∃ it ∈ its, e = Event.stdout it.line it.line.length)) := by
  refine ⟨prv_input_calls_sublist s its eof, prv_input_calls_length s its eof,
    prv_input_bytes_sublist s its eof, ?_⟩
  intro e he
  cases e with
  | stderr d => exact Or.inl ⟨d, rfl⟩
  | stdout buf buflen =>
    right
    have hmem : (buf, buflen) ∈ stdout_calls (prv_input s its eof).events := by
      generalize (prv_input s its eof).events = es at he
      induction es with
      | nil => simp at he
      | cons e es ih =>
        cases e with
        | stderr d =>
          simp only [List.mem_cons, reduceCtorEq, false_or] at he
          simpa [stdout_calls] using ih he
        | stdout b l =>
          simp only [List.mem_cons, Event.stdout.injEq] at he
          rcases he with ⟨h1, h2⟩ | he
          · simp [stdout_calls, h1, h2]
          · simp [stdout_calls, ih he]
    have hsub := (prv_input_calls_sublist s its eof).subset hmem
    simp only [List.mem_map, Prod.mk.injEq] at hsub
    obtain ⟨it, hit, h1, h2⟩ := hsub
    exact ⟨it, hit, by rw [← h2, h1]⟩

/-! ## Single passes of the loop -/

/-- A pass whose record is discarded goes on to the next record. -/
theorem prv_input_discard (s : prv_state_t) (it : Iteration) (rest : List Iteration)
    (eof : Bool) (t1 : timespec) (hclk : it.clock = some t1)
    (h : 0 < s.limit ∧ s.limit < (next_state s t1).count) :
    prv_input s (it :: rest) eof
        = (prv_input (next_state s t1) rest eof).after (discard_events s t1 it.line)
      ∧ runs_through s (it :: rest) = runs_through (next_state s t1) rest := by
  have hout := prv_output_discard s t1 it.line it.line.length it.fwrite_ret h
  rw [← hclk] at hout
  constructor
  · simp only [prv_input, hout, ne_eq, not_true_eq_false, if_false]
  · simp only [runs_through, hout, ne_eq, not_true_eq_false, if_false, Bool.true_and]

/-- A pass whose `fwrite` call is complete goes on to the next record. -/
theorem prv_input_full_write (s : prv_state_t) (it : Iteration) (rest : List Iteration)
    (eof : Bool) (t1 : timespec) (hclk : it.clock = some t1)
    (h : ¬ (0 < s.limit ∧ s.limit < (next_state s t1).count))
    (hfull : it.fwrite_ret = it.line.length) :
    prv_input s (it :: rest) eof
        = (prv_input (next_state s t1) rest eof).after
            (write_events s t1 it.line it.line.length)
      ∧ runs_through s (it :: rest) = runs_through (next_state s t1) rest := by
  have hout := prv_output_write s t1 it.line it.line.length it.fwrite_ret h
  rw [← hclk] at hout
  constructor
  · simp only [prv_input, hout]
    simp only [ne_eq, hfull, not_true_eq_false, if_false]
  · simp only [runs_through, hout]
    simp only [ne_eq, hfull, not_true_eq_false, if_false, Bool.true_and]

/-- A pass whose `fwrite` call is short: the `switch` on `errno` of lines
145-155. -/
theorem prv_input_short_write (s : prv_state_t) (it : Iteration) (rest : List Iteration)
    (eof : Bool) (t1 : timespec) (hclk : it.clock = some t1)
    (h : ¬ (0 < s.limit ∧ s.limit < (next_state s t1).count))
    (hshort : it.fwrite_ret ≠ it.line.length) :
    prv_input s (it :: rest) eof
        = (if it.errno = 0 then
            { state := next_state s t1, outcome := prv_eof it.ferror,
              events := write_events s t1 it.line it.line.length, reads := 1 }
          else if it.errno = EAGAIN then
            if s.write_error = PRV_WR_DROP then
              (prv_input (next_state s t1) rest eof).after
                (write_events s t1 it.line it.line.length
                  ++ VERBOSE (next_state s t1) 1 (Diag.pipe_full it.line))
            else
              { state := next_state s t1, outcome := Outcome.ret (-1),
                events := write_events s t1 it.line it.line.length
                  ++ VERBOSE (next_state s t1) 1 (Diag.pipe_full it.line),
                reads := 1 }
          else
            { state := next_state s t1, outcome := Outcome.ret (-1),
              events := write_events s t1 it.line it.line.length, reads := 1 })
      ∧ runs_through s (it :: rest)
        = (decide (it.errno ≠ 0 ∧ it.errno = EAGAIN ∧ s.write_error = PRV_WR_DROP)
            && runs_through (next_state s t1) rest) := by
  have hout := prv_output_write s t1 it.line it.line.length it.fwrite_ret h
  rw [← hclk] at hout
  constructor
  · simp only [prv_input, hout, ne_eq, hshort, not_false_eq_true, if_true,
      next_state_write_error]
  · simp only [runs_through, hout, ne_eq, hshort, not_false_eq_true, if_true,
      next_state_write_error]

/-- The loop never changes the write-error mode. -/
theorem prv_output_write_error (s : prv_state_t) (clock : Option timespec)
    (buf : List Nat) (buflen fw : Nat) (r : OutputResult)
    (h : prv_output s clock buf buflen fw = Except.ok r) :
    r.state.write_error = s.write_error := by
  cases clock with
  | none => simp [prv_output] at h
  | some t1 =>
    rw [(prv_output_ok_cases s t1 buf buflen fw r h).1, next_state_write_error]

/-! ## Records after which the loop goes on -/

/-- A pass after which the loop goes on: the rest of the input is processed
from the state `prv_output` left, after the traffic of this pass. -/
theorem prv_input_cons_continue (s : prv_state_t) (it : Iteration) (r : OutputResult)
    (hout : prv_output s it.clock it.line it.line.length it.fwrite_ret = Except.ok r)
    (hgo : (if r.ret ≠ it.line.length then
        decide (it.errno ≠ 0 ∧ it.errno = EAGAIN ∧ r.state.write_error = PRV_WR_DROP)
      else true) = true) :
    ∃ ev, ∀ (rest : List Iteration) (eof : Bool),
      prv_input s (it :: rest) eof = (prv_input r.state rest eof).after ev := by
  by_cases hret : r.ret = it.line.length
  · refine ⟨r.events, fun rest eof => ?_⟩
    simp only [prv_input, hout, ne_eq, hret, not_true_eq_false, if_false]
  · rw [if_pos hret] at hgo
    simp only [decide_eq_true_eq] at hgo
    obtain ⟨hz, he, hd⟩ := hgo
    refine ⟨r.events ++ VERBOSE r.state 1 (Diag.pipe_full it.line), fun rest eof => ?_⟩
    simp only [prv_input, hout, ne_eq, hret, not_false_eq_true, if_true, hz, if_false]
    rw [if_pos he, if_pos hd]

theorem runs_through_cons (s : prv_state_t) (it : Iteration) (rest : List Iteration) :
    runs_through s (it :: rest) = true ↔
      ∃ r, prv_output s it.clock it.line it.line.length it.fwrite_ret = Except.ok r
        ∧ (if r.ret ≠ it.line.length then
            decide (it.errno ≠ 0 ∧ it.errno = EAGAIN ∧ r.state.write_error = PRV_WR_DROP)
          else true) = true
        ∧ runs_through r.state rest = true := by
  cases hout : prv_output s it.clock it.line it.line.length it.fwrite_ret with
  | error status => simp [runs_through, hout]
  | ok r => simp [runs_through, hout]

/-- When the loop goes on after every record of `pre`, running `prv_input` on
`pre ++ rest` is running it on `rest` from the state left by `pre`, after the
traffic and the reads of `pre`. -/
theorem prv_input_append (s : prv_state_t) (pre rest : List Iteration) (eof : Bool)
    (h : runs_through s pre = true) :
    prv_input s (pre ++ rest) eof
      = { state := (prv_input (prv_input s pre false).state rest eof).state,
          outcome := (prv_input (prv_input s pre false).state rest eof).outcome,
          events := (prv_input s pre false).events
            ++ (prv_input (prv_input s pre false).state rest eof).events,
          reads := pre.length
            + (prv_input (prv_input s pre false).state rest eof).reads } := by
  induction pre generalizing s with
  | nil => simp [prv_input]
  | cons it pre ih =>
    obtain ⟨r, hout, hgo, hrest⟩ := (runs_through_cons s it pre).1 h
    obtain ⟨ev, hev⟩ := prv_input_cons_continue s it r hout hgo
    rw [List.cons_append, hev (pre ++ rest) eof, hev pre false, ih r.state hrest]
    simp only [InputResult.after, List.append_assoc, List.length_cons,
      InputResult.mk.injEq, true_and]
    omega

/-- When the loop goes on after every record, every record is read and the
result is decided at `PRV_EOF` by the error indicator of the input. -/
theorem prv_input_runs_through (s : prv_state_t) (its : List Iteration) (eof : Bool)
    (h : runs_through s its = true) :
    (prv_input s its eof).reads = its.length
      ∧ (prv_input s its eof).outcome = prv_eof eof
      ∧ (prv_input s its eof).state = (prv_input s its false).state
      ∧ (prv_input s its eof).events = (prv_input s its false).events := by
  have h1 := prv_input_append s its [] eof h
  rw [List.append_nil] at h1
  rw [h1]
  simp [prv_input]

theorem runs_through_append (s : prv_state_t) (pre rest : List Iteration)
    (h : runs_through s pre = true) :
    runs_through s (pre ++ rest) = runs_through (prv_input s pre false).state rest := by
  induction pre generalizing s with
  | nil => simp [prv_input]
  | cons it pre ih =>
    obtain ⟨r, hout, hgo, hrest⟩ := (runs_through_cons s it pre).1 h
    obtain ⟨ev, hev⟩ := prv_input_cons_continue s it r hout hgo
    rw [hev pre false]
    simp only [InputResult.after]
    rw [← ih r.state hrest, List.cons_append]
    simp only [runs_through, hout, hgo, Bool.true_and]

theorem runs_through_write_error (s : prv_state_t) (pre : List Iteration)
    (h : runs_through s pre = true) :
    (prv_input s pre false).state.write_error = s.write_error := by
  induction pre generalizing s with
  | nil => rfl
  | cons it pre ih =>
    obtain ⟨r, hout, hgo, hrest⟩ := (runs_through_cons s it pre).1 h
    obtain ⟨ev, hev⟩ := prv_input_cons_continue s it r hout hgo
    rw [hev pre false]
    simp only [InputResult.after]
    rw [ih r.state hrest, prv_output_write_error s it.clock it.line it.line.length
      it.fwrite_ret r hout]

/-- A pass that ends the loop whatever follows it: after a part of the input
that the loop went through, the result is the one of that pass, and the
records after it play no part. -/
theorem prv_input_stop (s : prv_state_t) (pre : List Iteration) (it : Iteration)
    (post : List Iteration) (eof : Bool) (res : InputResult)
    (hpre : runs_through s pre = true)
    (hres : ∀ rest e, prv_input (prv_input s pre false).state (it :: rest) e = res) :
    prv_input s (pre ++ it :: post) eof
        = { state := res.state, outcome := res.outcome,
            events := (prv_input s pre false).events ++ res.events,
            reads := pre.length + res.reads }
      ∧ prv_input s (pre ++ it :: post) eof = prv_input s (pre ++ [it]) eof := by
  rw [prv_input_append s pre (it :: post) eof hpre, prv_input_append s pre [it] eof hpre,
    hres post eof, hres [] eof]
  exact ⟨rfl, rfl⟩

/-- Under the Drop mode, when every `fwrite` call is short with `EAGAIN`, the
loop goes on after every record and the state is the one left by the calls of
`prv_output` on all the records. -/
theorem drop_loop (s : prv_state_t) (its : List Iteration)
    (hmode : s.write_error = PRV_WR_DROP)
    (hclk : ∀ it ∈ its, it.clock ≠ none)
    (hfull : ∀ it ∈ its, it.fwrite_ret < it.line.length ∧ it.errno = EAGAIN) :
    runs_through s its = true
      ∧ (prv_input s its false).state = output_state s (its.filterMap Iteration.call)
      ∧ (its.filterMap Iteration.call).length = its.length := by
  induction its generalizing s with
  | nil => exact ⟨rfl, rfl, rfl⟩
  | cons it rest ih =>
    have hc := hclk it (List.mem_cons_self _ _)
    obtain ⟨t1, ht1⟩ := Option.ne_none_iff_exists'.1 hc
    obtain ⟨hlt, herr⟩ := hfull it (List.mem_cons_self _ _)
    have hrec := ih (next_state s t1) (by rw [next_state_write_error, hmode])
      (fun x hx => hclk x (List.mem_cons_of_mem _ hx))
      (fun x hx => hfull x (List.mem_cons_of_mem _ hx))
    have hcall : (it :: rest).filterMap Iteration.call
        = { t1 := t1, buf := it.line, buflen := it.line.length,
            fwrite_ret := it.fwrite_ret } :: rest.filterMap Iteration.call := by
      simp [List.filterMap_cons, Iteration.call, ht1]
    rw [hcall, output_state_cons, List.length_cons, List.length_cons, hrec.2.2]
    by_cases hd : 0 < s.limit ∧ s.limit < (next_state s t1).count
    · obtain ⟨h1, h2⟩ := prv_input_discard s it rest false t1 ht1 hd
      rw [h1, h2]
      exact ⟨hrec.1, hrec.2.1, rfl⟩
    · obtain ⟨h1, h2⟩ := prv_input_short_write s it rest false t1 ht1 hd (by omega)
      have hne : it.errno ≠ 0 := by
        rw [herr]
        decide
      rw [h1, h2, if_neg hne, if_pos herr, if_pos hmode]
      refine ⟨?_, hrec.2.1, rfl⟩
      rw [hrec.1]
      have hE : EAGAIN ≠ 0 := by decide
      simp [herr, hmode, hE]

/-! ## Claims about prv_input -/

/-- C5. Drop-mode resilience: with `write_error = PRV_WR_DROP`, for every input,
limit, window and sequence of clock readings, if every `fwrite` call is short
with `errno = EAGAIN`, the loop of `prv_input` goes on after every record: all
records are read, each is counted by one call of `prv_output` (the state is the
one those calls leave), each is handed to `fwrite` at most once, `prv_input`
ends at the end of the input, and with no read error it returns 0 and the
process exits with status 0. -/
theorem drop_mode_resilience (s : prv_state_t) (its : List Iteration) (eof : Bool)
    (hmode : s.write_error = PRV_WR_DROP)
    (hclk : ∀ it ∈ its, it.clock ≠ none)
    (hfull : ∀ it ∈ its, it.fwrite_ret < it.line.length ∧ it.errno = EAGAIN) :
    runs_through s its = true
      ∧ (prv_input s its eof).reads = its.length
      ∧ (prv_input s its eof).state = output_state s (its.filterMap Iteration.call)
      ∧ (its.filterMap Iteration.call).length = its.length
      ∧ (stdout_calls (prv_input s its eof).events).Sublist
          (its.map (fun it => (it.line, it.line.length)))
      ∧ (prv_input s its eof).outcome = prv_eof eof
      ∧ (eof = false → (prv_input s its eof).outcome = Outcome.ret 0
          ∧ exit_status (prv_input s its eof) = 0) := by
  obtain ⟨h1, h2, h3⟩ := drop_loop s its hmode hclk hfull
  obtain ⟨g1, g2, g3, _⟩ := prv_input_runs_through s its eof h1
  refine ⟨h1, g1, by rw [g3, h2], h3, prv_input_calls_sublist s its eof, g2, ?_⟩
  intro he
  subst he
  simp only [exit_status, g2]
  exact ⟨rfl, rfl⟩

/-- C6. Channel-full is fatal outside the Drop mode. After a part of the input
that the loop went through, a record that is admitted and whose `fwrite` call
is short with `errno = EAGAIN` lets the loop go on only when
`write_error = PRV_WR_DROP`; in every other mode (Exit, and likewise Block)
`prv_input` returns -1 at that record: it is the last record read, the state is
the one its call of `prv_output` left, the records after it play no part, and
the process exits with status 111. -/
theorem channel_full_fatal (s : prv_state_t) (pre : List Iteration) (it : Iteration)
    (post : List Iteration) (eof : Bool) (t1 : timespec)
    (hpre : runs_through s pre = true) (hclk : it.clock = some t1)
    (hwr : ¬ (0 < (prv_input s pre false).state.limit
      ∧ (prv_input s pre false).state.limit
          < (next_state (prv_input s pre false).state t1).count))
    (hshort : it.fwrite_ret < it.line.length) (herr : it.errno = EAGAIN) :
    (runs_through s (pre ++ [it]) = true ↔ s.write_error = PRV_WR_DROP)
      ∧ (s.write_error ≠ PRV_WR_DROP →
          (prv_input s (pre ++ it :: post) eof).outcome = Outcome.ret (-1)
          ∧ (prv_input s (pre ++ it :: post) eof).reads = pre.length + 1
          ∧ exit_status (prv_input s (pre ++ it :: post) eof) = 111
          ∧ prv_input s (pre ++ it :: post) eof = prv_input s (pre ++ [it]) eof
          ∧ (prv_input s (pre ++ it :: post) eof).state
              = next_state (prv_input s pre false).state t1
          ∧ stdout_calls (prv_input s (pre ++ it :: post) eof).events
              = stdout_calls (prv_input s pre false).events
                  ++ [(it.line, it.line.length)]) := by
  have hne : it.errno ≠ 0 := by
    rw [herr]
    decide
  have hwe := runs_through_write_error s pre hpre
  constructor
  · rw [runs_through_append s pre [it] hpre,
      (prv_input_short_write _ it [] false t1 hclk hwr (by omega)).2, hwe]
    have hE : EAGAIN ≠ 0 := by decide
    simp [herr, runs_through, hE]
  · intro hmode
    have hres : ∀ rest e, prv_input (prv_input s pre false).state (it :: rest) e
        = { state := next_state (prv_input s pre false).state t1,
            outcome := Outcome.ret (-1),
            events := write_events (prv_input s pre false).state t1 it.line it.line.length
              ++ VERBOSE (next_state (prv_input s pre false).state t1) 1
                  (Diag.pipe_full it.line),
            reads := 1 } := by
      intro rest e
      rw [(prv_input_short_write _ it rest e t1 hclk hwr (by omega)).1,
        if_neg hne, if_pos herr, if_neg (by rw [hwe]; exact hmode)]
    obtain ⟨h1, h2⟩ := prv_input_stop s pre it post eof _ hpre hres
    refine ⟨by rw [h1], by rw [h1], by rw [h1]; rfl, h2, by rw [h1], ?_⟩
    rw [h1]
    simp [stdout_calls_append, stdout_calls_write_events, stdout_calls_VERBOSE]

/-- C7. Stream I/O errors are fatal in every write-error mode. After a part of
the input that the loop went through, a record that is admitted and whose
`fwrite` call is short with an `errno` that is neither 0 nor `EAGAIN` makes
`prv_input` return -1 at that record: the loop does not go on, it is the last
record read, it was handed to `fwrite` once, the records after it play no
part, and the process exits with status 111. And an input the loop went
through to its end, ending with the error indicator of `stdin` set, makes
`prv_input` return -1 and the process exit with status 111. -/
theorem stream_io_error_fatal (s : prv_state_t) (pre : List Iteration) (it : Iteration)
    (post : List Iteration) (eof : Bool) (t1 : timespec)
    (hpre : runs_through s pre = true) (hclk : it.clock = some t1)
    (hwr : ¬ (0 < (prv_input s pre false).state.limit
      ∧ (prv_input s pre false).state.limit
          < (next_state (prv_input s pre false).state t1).count))
    (hshort : it.fwrite_ret < it.line.length)
    (h0 : it.errno ≠ 0) (hE : it.errno ≠ EAGAIN) :
    ((prv_input s (pre ++ it :: post) eof).outcome = Outcome.ret (-1)
      ∧ (prv_input s (pre ++ it :: post) eof).reads = pre.length + 1
      ∧ exit_status (prv_input s (pre ++ it :: post) eof) = 111
      ∧ prv_input s (pre ++ it :: post) eof = prv_input s (pre ++ [it]) eof
      ∧ runs_through s (pre ++ [it]) = false
      ∧ stdout_calls (prv_input s (pre ++ it :: post) eof).events
          = stdout_calls (prv_input s pre false).events ++ [(it.line, it.line.length)])
    ∧ (∀ (s2 : prv_state_t) (its : List Iteration), runs_through s2 its = true →
        (prv_input s2 its true).outcome = Outcome.ret (-1)
        ∧ (prv_input s2 its true).reads = its.length
        ∧ exit_status (prv_input s2 its true) = 111) := by
  constructor
  · have hres : ∀ rest e, prv_input (prv_input s pre false).state (it :: rest) e
        = { state := next_state (prv_input s pre false).state t1,
            outcome := Outcome.ret (-1),
            events := write_events (prv_input s pre false).state t1 it.line it.line.length,
            reads := 1 } := by
      intro rest e
      rw [(prv_input_short_write _ it rest e t1 hclk hwr (by omega)).1,
        if_neg h0, if_neg hE]
    obtain ⟨h1, h2⟩ := prv_input_stop s pre it post eof _ hpre hres
    refine ⟨by rw [h1], by rw [h1], by rw [h1]; rfl, h2, ?_, ?_⟩
    · rw [runs_through_append s pre [it] hpre,
        (prv_input_short_write _ it [] false t1 hclk hwr (by omega)).2]
      simp [hE]
    · rw [h1]
      simp [stdout_calls_append, stdout_calls_write_events]
  · intro s2 its hrun
    obtain ⟨g1, g2, _, _⟩ := prv_input_runs_through s2 its true hrun
    refine ⟨g2, g1, ?_⟩
    simp only [exit_status, g2]
    rfl

/-- C10. A short write with `errno = 0` ends `prv_input` like the end of the
input, in every write-error mode. After a part of the input that the loop went
through, a record that is admitted and whose `fwrite` call is short with
`errno = 0` is the last record read; `prv_input` returns 0 (exit status 0)
unless the error indicator of `stdin` is set, in which case it returns -1; the
records after it play no part, and the whole result is the one obtained when
the write is complete and the input ends after that record with the same error
indicator. -/
theorem short_write_errno_zero (s : prv_state_t) (pre : List Iteration) (it : Iteration)
    (post : List Iteration) (eof : Bool) (t1 : timespec)
    (hpre : runs_through s pre = true) (hclk : it.clock = some t1)
    (hwr : ¬ (0 < (prv_input s pre false).state.limit
      ∧ (prv_input s pre false).state.limit
          < (next_state (prv_input s pre false).state t1).count))
    (hshort : it.fwrite_ret < it.line.length) (herr : it.errno = 0) :
    (prv_input s (pre ++ it :: post) eof).reads = pre.length + 1
      ∧ (prv_input s (pre ++ it :: post) eof).outcome = prv_eof it.ferror
      ∧ (it.ferror = false →
          (prv_input s (pre ++ it :: post) eof).outcome = Outcome.ret 0
          ∧ exit_status (prv_input s (pre ++ it :: post) eof) = 0)
      ∧ (it.ferror = true →
          (prv_input s (pre ++ it :: post) eof).outcome = Outcome.ret (-1)
          ∧ exit_status (prv_input s (pre ++ it :: post) eof) = 111)
      ∧ prv_input s (pre ++ it :: post) eof = prv_input s (pre ++ [it]) eof
      ∧ prv_input s (pre ++ it :: post) eof
          = prv_input s (pre ++ [{ it with fwrite_ret := it.line.length }]) it.ferror := by
  have hres : ∀ rest e, prv_input (prv_input s pre false).state (it :: rest) e
      = { state := next_state (prv_input s pre false).state t1,
          outcome := prv_eof it.ferror,
          events := write_events (prv_input s pre false).state t1 it.line it.line.length,
          reads := 1 } := by
    intro rest e
    rw [(prv_input_short_write _ it rest e t1 hclk hwr (by omega)).1, if_pos herr]
  obtain ⟨h1, h2⟩ := prv_input_stop s pre it post eof _ hpre hres
  refine ⟨by rw [h1], by rw [h1], ?_, ?_, h2, ?_⟩
  · intro hf
    rw [h1]
    simp only [exit_status, hf, prv_eof]
    exact ⟨rfl, rfl⟩
  · intro hf
    rw [h1]
    simp only [exit_status, hf, prv_eof]
    exact ⟨rfl, rfl⟩
  · rw [h1, prv_input_append s pre _ it.ferror hpre,
      (prv_input_full_write (prv_input s pre false).state
        { it with fwrite_ret := it.line.length } [] it.ferror t1 hclk hwr rfl).1]
    simp [InputResult.after, prv_input]

/-- Witness for C5: Drop mode, `limit = 2`, three records whose writes all
report `EAGAIN`: the three are read and counted, two were handed to `fwrite`,
the third was discarded, and the process exits with status 0. -/
theorem drop_mode_resilience_witness :
    (example_drop_state.write_error = PRV_WR_DROP
      ∧ (∀ it ∈ [example_full, example_full, example_full], it.clock ≠ none)
      ∧ (∀ it ∈ [example_full, example_full, example_full],
          it.fwrite_ret < it.line.length ∧ it.errno = EAGAIN))
    ∧ (prv_input example_drop_state [example_full, example_full, example_full] false).reads
        = 3
    ∧ (prv_input example_drop_state [example_full, example_full, example_full]
        false).state.count = 3
    ∧ stdout_calls (prv_input example_drop_state [example_full, example_full, example_full]
        false).events = [([98, 10], 2), ([98, 10], 2)]
    ∧ (prv_input example_drop_state [example_full, example_full, example_full]
        false).outcome = Outcome.ret 0
    ∧ exit_status (prv_input example_drop_state [example_full, example_full, example_full]
        false) = 0 :=
  have h := drop_mode_resilience example_drop_state [example_full, example_full, example_full]
    false (by decide) (by decide) (by decide)
  have h2 := h.2.2.2.2.2.2 rfl
  ⟨⟨by decide, by decide, by decide⟩, h.2.1, by decide, by decide, h2.1, h2.2⟩

/-- Witness for C6: Exit mode, a record written in full, then a record whose
write reports `EAGAIN`, then one more record: `prv_input` returns -1 after two
reads and the process exits with status 111; the same holds in Block mode. -/
theorem channel_full_fatal_witness :
    (runs_through example_exit_state [example_ok] = true
      ∧ example_full.clock = some { tv_sec := 100, tv_nsec := 9 }
      ∧ example_full.fwrite_ret < example_full.line.length
      ∧ example_full.errno = EAGAIN
      ∧ example_exit_state.write_error ≠ PRV_WR_DROP)
    ∧ (prv_input example_exit_state ([example_ok] ++ example_full :: [example_ok])
        false).outcome = Outcome.ret (-1)
    ∧ (prv_input example_exit_state ([example_ok] ++ example_full :: [example_ok])
        false).reads = 2
    ∧ exit_status (prv_input example_exit_state
        ([example_ok] ++ example_full :: [example_ok]) false) = 111
    ∧ exit_status (prv_input example_block_state
        ([example_ok] ++ example_full :: [example_ok]) false) = 111 :=
  have h := channel_full_fatal example_exit_state [example_ok] example_full [example_ok]
    false { tv_sec := 100, tv_nsec := 9 } (by decide) (by decide) (by decide) (by decide)
    (by decide)
  have h2 := h.2 (by decide)
  ⟨⟨by decide, by decide, by decide, by decide, by decide⟩, h2.1, h2.2.1, h2.2.2.1,
    by decide⟩

/-- Witness for C7: Drop mode, a record whose write reports `EPIPE` between two
other records: `prv_input` returns -1 after one read and the process exits with
status 111; and an input of one record that ends with the error indicator set
makes `prv_input` return -1. -/
theorem stream_io_error_fatal_witness :
    (runs_through example_drop_state [] = true
      ∧ example_broken.clock = some { tv_sec := 100, tv_nsec := 9 }
      ∧ example_broken.fwrite_ret < example_broken.line.length
      ∧ example_broken.errno ≠ 0 ∧ example_broken.errno ≠ EAGAIN)
    ∧ (prv_input example_drop_state ([] ++ example_broken :: [example_ok])
        false).outcome = Outcome.ret (-1)
    ∧ (prv_input example_drop_state ([] ++ example_broken :: [example_ok])
        false).reads = 1
    ∧ exit_status (prv_input example_drop_state ([] ++ example_broken :: [example_ok])
        false) = 111
    ∧ (runs_through example_drop_state [example_ok] = true
      ∧ (prv_input example_drop_state [example_ok] true).outcome = Outcome.ret (-1)
      ∧ exit_status (prv_input example_drop_state [example_ok] true) = 111) :=
  have h := stream_io_error_fatal example_drop_state [] example_broken [example_ok]
    false { tv_sec := 100, tv_nsec := 9 } (by decide) (by decide) (by decide) (by decide)
    (by decide) (by decide)
  have h2 := h.2 example_drop_state [example_ok] (by decide)
  ⟨⟨by decide, by decide, by decide, by decide, by decide⟩, h.1.1, h.1.2.1, h.1.2.2.1,
    by decide, h2.1, h2.2.2⟩

/-- Witness for C10: Exit mode, a record written in full, then a record whose
write is short with `errno = 0`, then one more record: `prv_input` returns 0
after two reads and the process exits with status 0. -/
theorem short_write_errno_zero_witness :
    (runs_through example_exit_state [example_ok] = true
      ∧ example_short.clock = some { tv_sec := 100, tv_nsec := 9 }
      ∧ example_short.fwrite_ret < example_short.line.length
      ∧ example_short.errno = 0)
    ∧ (prv_input example_exit_state ([example_ok] ++ example_short :: [example_ok])
        false).reads = 2
    ∧ (prv_input example_exit_state ([example_ok] ++ example_short :: [example_ok])
        false).outcome = Outcome.ret 0
    ∧ exit_status (prv_input example_exit_state
        ([example_ok] ++ example_short :: [example_ok]) false) = 0 :=
  have h := short_write_errno_zero example_exit_state [example_ok] example_short
    [example_ok] false { tv_sec := 100, tv_nsec := 9 } (by decide) (by decide) (by decide)
    (by decide) (by decide)
  have h2 := h.2.2.1 rfl
  ⟨⟨by decide, by decide, by decide, by decide⟩, h.1, h2.1, h2.2⟩

end Prv
